import Mathlib

/-!
Verification of the ts-doc-extract symbol-extraction core.

The JavaScript sources (src/extractor.mjs, src/comments.mjs, src/types.mjs)
are shallowly embedded below.  The ts-morph parser collaborator is modelled
by plain data: a declaration node is a record of the results of the
accessors the extractor calls on it (getKindName, getName, getSymbol,
hasModifier, getLeadingCommentRanges, getJsDocs, getParameters, ...), and a
source file is a record of its exported declarations, import declarations,
default-export flag and last line number.

JavaScript's String.prototype.localeCompare consults the ambient ICU
collation; it is modelled by a comparator parameter
lc : String -> String -> Ordering threaded to every function that sorts.
Array.prototype.sort is a stable sort by the given comparator and is
modelled by a stable insertion sort.
-/

namespace TsDoc

/-- Swap-free helper: a comparator result that does not say "greater",
i.e. the element may stay before the other under a JS stable sort. -/
def ordNotGt (o : Ordering) : Bool :=
  match o with
  | .gt => false
  | _ => true

/-- Models JavaScript String.prototype.includes restricted to lists of
characters: true when sub occurs contiguously inside cs (the empty list
occurs in everything, as in JS). -/
def listIncludes (sub : List Char) : List Char → Bool
  | [] => sub.isEmpty
  | c :: t => sub.isPrefixOf (c :: t) || listIncludes sub t

/-- Models s.includes(sub) for JavaScript strings. -/
def jsIncludes (s sub : String) : Bool :=
  listIncludes sub.data s.data

/-- Models s.includes(c) for a one-character search string. -/
def hasChar (s : String) (c : Char) : Bool :=
  s.data.contains c

/-- Models s.startsWith(pre) for JavaScript strings. -/
def jsStartsWith (s pre : String) : Bool :=
  pre.data.isPrefixOf s.data

/-- Models s.endsWith(suf) for JavaScript strings. -/
def jsEndsWith (s suf : String) : Bool :=
  suf.data.isSuffixOf s.data

/-- The whitespace characters String.prototype.trim strips (the common
ones: space, tab, line feed, carriage return, vertical tab, form feed,
no-break space, BOM). -/
def jsIsWhitespace (c : Char) : Bool :=
  c = ' ' || c = '\t' || c = '\n' || c = '\r' ||
  c.toNat = 11 || c.toNat = 12 || c.toNat = 0xa0 || c.toNat = 0xfeff

/-- Models String.prototype.trim: strip whitespace from both ends. -/
def jsTrim (s : String) : String :=
  String.mk (((s.data.dropWhile jsIsWhitespace).reverse.dropWhile jsIsWhitespace).reverse)

/-- Helper for jsSplit: accumulates the current piece (reversed). -/
def splitCharAux (sep : Char) : List Char → List Char → List String
  | [], acc => [String.mk acc.reverse]
  | c :: rest, acc =>
    if c = sep then String.mk acc.reverse :: splitCharAux sep rest []
    else splitCharAux sep rest (c :: acc)

/-- Models s.split(sep) for a one-character separator: empty pieces are
kept, and the empty string splits to [""], as in JavaScript. -/
def jsSplit (s : String) (sep : Char) : List String :=
  splitCharAux sep s.data []

/-- Join a list of strings with a separator, as Array.prototype.join. -/
def joinSep (sep : String) : List String → String
  | [] => ""
  | [x] => x
  | x :: y :: t => x ++ sep ++ joinSep sep (y :: t)

/-- Helper for jsLastIndexOf, carrying the index of the list head. -/
def lastIndexOfAux (x : String) : List String → Nat → Option Nat
  | [], _ => none
  | y :: t, i =>
    match lastIndexOfAux x t (i + 1) with
    | some j => some j
    | none => if y = x then some i else none

/-- Models Array.prototype.lastIndexOf on a list of strings (none models
the JS result -1). -/
def jsLastIndexOf (l : List String) (x : String) : Option Nat :=
  lastIndexOfAux x l 0

/-- Stable insert for the model of Array.prototype.sort: a lands before
the first element it need not follow. -/
def jsOrderedInsert (le : α → α → Bool) (a : α) : List α → List α
  | [] => [a]
  | b :: l => if le a b then a :: b :: l else b :: jsOrderedInsert le a l

/-- Models Array.prototype.sort(comparator): a stable sort keeping x
before y when comparator(x, y) <= 0.  le x y is "comparator(x,y) is not
greater". -/
def jsSortBy (le : α → α → Bool) : List α → List α
  | [] => []
  | b :: l => jsOrderedInsert le b (jsSortBy le l)

/-- A concrete instantiation of the localeCompare parameter: code-point
comparison, which agrees with the ICU root collation on the ASCII
identifiers appearing in the spec's examples where it matters. -/
def cmpCodepoints : List Char → List Char → Ordering
  | [], [] => .eq
  | [], _ :: _ => .lt
  | _ :: _, [] => .gt
  | a :: as, b :: bs =>
    match compare a.toNat b.toNat with
    | .eq => cmpCodepoints as bs
    | .lt => .lt
    | .gt => .gt

/-- Code-point comparator on strings, usable for localeCompare. -/
def lcCodepoint (a b : String) : Ordering :=
  cmpCodepoints a.data b.data

/-! ## The parser collaborator's data (comments.mjs inputs) -/

/-- One leading comment range as ts-morph reports it: getKind() (2 is
SingleLineCommentTrivia), getText() and getPos(). -/
structure CommentRange where
  kind : Nat
  text : String
  pos : Nat
deriving DecidableEq

/-- One JSDoc tag node: getTagName(), getComment() (undefined when the tag
has no comment) and getTypeExpression?.()?.getText(). -/
structure RawTag where
  tagName : String
  comment : Option String
  typeExprText : Option String
deriving DecidableEq

/-- One JSDoc block node: getDescription() and getTags(). -/
structure RawJsDoc where
  description : String
  tags : List RawTag
deriving DecidableEq

/-- The private/protected modifier flags a hasModifier-bearing node
answers for: hasModifier(SyntaxKind.PrivateKeyword) and
hasModifier(SyntaxKind.ProtectedKeyword). -/
structure Modifiers where
  priv : Bool
  prot : Bool
deriving DecidableEq

/-- One parameter node: getName(), getType().getText(), isOptional(),
getInitializer()?.getText(). -/
structure Param where
  name : String
  type : String
  optional : Bool
  defaultValue : Option String := none
deriving DecidableEq

/-- One interface member node: getSymbol()?.getName(), getText(), and its
leading comment ranges. -/
structure IfaceMember where
  symbolName : Option String
  text : String
  leadingCommentRanges : List CommentRange := []
deriving DecidableEq

/-- An enum member's computed getValue(): a string, a number, or
undefined (modelled by the surrounding Option). -/
inductive EnumVal where
  | str (s : String)
  | num (n : Int)
deriving DecidableEq

/-- One enum member node: getName() and getValue(). -/
structure EnumMemberDecl where
  name : String
  value : Option EnumVal
deriving DecidableEq

/-- One constructor declaration node of a class. -/
structure CtorDecl where
  params : List Param := []
  hasModifierFn : Option Modifiers := none
  leadingCommentRanges : List CommentRange := []
  getJsDocsFn : Option (List RawJsDoc) := none
deriving DecidableEq

/-- One property declaration node of a class: getName(),
getType().getText(), the hasModifier accessor when present (none models a
node without the method, whose optional call yields undefined),
isStatic(), comments and JSDoc blocks. -/
structure PropDecl where
  name : String
  typeText : String
  hasModifierFn : Option Modifiers := none
  isStatic : Bool := false
  leadingCommentRanges : List CommentRange := []
  getJsDocsFn : Option (List RawJsDoc) := none
deriving DecidableEq

/-- One method declaration node of a class. -/
structure MethodDecl where
  name : String
  params : List Param := []
  returnTypeText : String := ""
  hasModifierFn : Option Modifiers := none
  isStatic : Bool := false
  isAsync : Bool := false
  leadingCommentRanges : List CommentRange := []
  getJsDocsFn : Option (List RawJsDoc) := none
deriving DecidableEq

/-- The class-specific accessors of a ClassDeclaration node:
getBaseClass()?.getName(), getImplements() texts, getConstructors(),
getProperties(), getMethods(). -/
structure ClassInfo where
  baseClassName : Option String := none
  implementsTexts : List String := []
  ctors : List CtorDecl := []
  props : List PropDecl := []
  methods : List MethodDecl := []
deriving DecidableEq

/-- A declaration node, modelled as the record of the results of every
accessor the extractor may call on it.  An outer none in getNameFn /
getSymbolFn / hasModifierFn / getJsDocsFn / isAsyncFn models a node
without that method (the JS code probes with typeof or optional calls);
an inner none models the method returning undefined. -/
structure Decl where
  kindName : String
  getNameFn : Option (Option String) := none
  getSymbolFn : Option (Option String) := none
  hasModifierFn : Option Modifiers := none
  text : String := ""
  leadingCommentRanges : List CommentRange := []
  getJsDocsFn : Option (List RawJsDoc) := none
  params : List Param := []
  returnTypeText : String := ""
  isAsyncFn : Option Bool := none
  classInfo : ClassInfo := {}
  ifaceMembers : List IfaceMember := []
  typeText : String := ""
  initializer : Option String := none
  enumMembers : List EnumMemberDecl := []
deriving DecidableEq

/-- One import declaration node: getModuleSpecifierValue(), the list of
named-import names, getDefaultImport()?.getText(). -/
structure ImportDecl where
  moduleSpecifier : String
  namedImports : List String := []
  defaultImport : Option String := none
deriving DecidableEq

/-- A parsed source file, as the Project collaborator hands it to
extractModule: getExportedDeclarations() entries (name, declarations),
getImportDeclarations(), getDefaultExportSymbol() presence,
getEndLineNumber(). -/
structure SourceFile where
  exportedDeclarations : List (String × List Decl) := []
  importDeclarations : List ImportDecl := []
  hasDefaultExport : Bool := false
  endLineNumber : Nat := 1
deriving DecidableEq

/-! ## Output records (the data model of spec section 3) -/

/-- A CommentRecord of the output. -/
structure CommentRec where
  type : String
  text : String
  start : Nat
deriving DecidableEq

/-- A tag of a JSDocRecord. -/
structure JSTag where
  name : String
  text : String
  type : Option String
deriving DecidableEq

/-- A JSDocRecord of the output. -/
structure JSDocInfo where
  description : String
  tags : List JSTag
deriving DecidableEq

/-- A ParameterRecord of a function symbol. -/
structure ParamRecord where
  name : String
  type : String
  optional : Bool
  defaultValue : Option String
  comment : Option String
deriving DecidableEq

/-- A parameter entry of a class-member record (constructors and methods
record name, type and optionality only). -/
structure MParam where
  name : String
  type : String
  optional : Bool
deriving DecidableEq

/-- A MemberRecord of a class symbol.  Fields absent for a given member
kind (isAsync, parameters, returnType) are none. -/
structure Member where
  kind : String
  name : String
  signature : String
  visibility : String
  isStatic : Bool
  isAsync : Option Bool := none
  leadingComments : List CommentRec := []
  jsDoc : Option JSDocInfo := none
  parameters : Option (List MParam) := none
  returnType : Option String := none
deriving DecidableEq

/-- A property entry of an interface symbol. -/
structure IfaceProp where
  name : String
  signature : String
  leadingComments : List CommentRec
deriving DecidableEq

/-- The typeInfo attached to type aliases and constants. -/
structure TypeInfo where
  raw : String
  isGeneric : Bool
  typeParameters : List String
deriving DecidableEq

/-- An enumValues entry of an enum symbol. -/
structure EnumValueRec where
  name : String
  value : Option EnumVal
deriving DecidableEq

/-- A SymbolRecord: base fields plus the kind-specific fields, which are
none (absent) for symbols of other kinds. -/
structure Symbol where
  kind : String
  name : String
  signature : String
  leadingComments : List CommentRec
  jsDoc : Option JSDocInfo
  isPrivate : Bool
  parameters : Option (List ParamRecord) := none
  returnType : Option String := none
  isAsync : Option Bool := none
  baseClass : Option String := none
  interfaces : Option (List String) := none
  members : Option (List Member) := none
  properties : Option (List IfaceProp) := none
  typeInfo : Option TypeInfo := none
  value : Option String := none
  enumValues : Option (List EnumValueRec) := none
deriving DecidableEq

/-- An ImportRecord of the output. -/
structure ImportRec where
  module : String
  namedImports : List String
  defaultImport : Option String
deriving DecidableEq

/-- The metadata record of the output. -/
structure Metadata where
  hasDefaultExport : Bool
  exportCount : Nat
  loc : Nat
deriving DecidableEq

/-- The ExtractionResult of one invocation. -/
structure ExtractionResult where
  module : String
  filePath : String
  exports : List Symbol
  imports : List ImportRec
  metadata : Metadata
deriving DecidableEq

/-! ## comments.mjs -/

/-- extractComments (comments.mjs): one CommentRecord per leading comment
range, tagged single-line when the range kind is 2, with verbatim text
and source position.  The node is represented by the result of its
getLeadingCommentRanges(). -/
def extractComments (leadingRanges : List CommentRange) : List CommentRec :=
  leadingRanges.map (fun range =>
    { type := if range.kind = 2 then "single-line" else "multi-line"
      text := range.text
      start := range.pos })

/-- extractJSDoc (comments.mjs): undefined when the node has no getJsDocs
method or no JSDoc block; otherwise the first block, its description
trimmed and each tag's comment defaulted to "" (the JS tag.getComment()
|| '' also maps an empty comment to "").  The node is represented by the
result of probing its getJsDocs method. -/
def extractJSDoc (getJsDocsFn : Option (List RawJsDoc)) : Option JSDocInfo :=
  match getJsDocsFn with
  | none => none
  | some jsDocs =>
    match jsDocs with
    | [] => none
    | doc :: _ =>
      some { description := jsTrim doc.description
             tags := doc.tags.map (fun tag =>
               { name := tag.tagName
                 text := tag.comment.getD ""
                 type := tag.typeExprText }) }

/-- extractParamComment (comments.mjs): the text of the first tag named
"param" whose text contains paramName as a substring.  (The JS guard
!jsDoc.tags can not fire on records extractJSDoc builds, which always
carry a tags array.) -/
def extractParamComment (jsDoc : Option JSDocInfo) (paramName : String) : Option String :=
  match jsDoc with
  | none => none
  | some jd =>
    (jd.tags.find? (fun tag => tag.name == "param" && jsIncludes tag.text paramName)).map
      (fun tag => tag.text)

/-! ## types.mjs -/

/-- The characters JavaScript's regexp dot does not match: the line
terminators LF, CR, LS, PS. -/
def jsDotChar (c : Char) : Bool :=
  !(c = '\n' || c = '\r' || c.toNat = 0x2028 || c.toNat = 0x2029)

/-- The regexp engine's scan for /<(.+)>$/ over the input minus its final
character: at each position whose character is '<', the greedy dot-plus
must cover the whole remainder (nonempty, no line terminator); the first
position that succeeds yields the capture, as the leftmost match wins. -/
def angleScan : List Char → Option (List Char)
  | [] => none
  | c :: rest =>
    if c = '<' && !rest.isEmpty && rest.all jsDotChar then some rest
    else angleScan rest

/-- typeStr.match(/<(.+)>$/): some capture when the string ends in '>'
and a '<' strictly precedes at least one capturable character. -/
def jsMatchAngle (s : String) : Option String :=
  if s.data.getLast? = some '>' then (angleScan s.data.dropLast).map String.mk
  else none

/-- extractTypeParameters (types.mjs): [] without a '<'; otherwise the
capture of /<(.+)>$/ split on every comma, each piece trimmed ([] when
the regexp does not match). -/
def extractTypeParameters (typeStr : String) : List String :=
  if !hasChar typeStr '<' then []
  else
    match jsMatchAngle typeStr with
    | none => []
    | some inner => (jsSplit inner ',').map jsTrim

/-- extractTypeInfo (types.mjs).  The ts-morph Type is represented by its
getText(), which is all extractTypeInfo reads from it. -/
def extractTypeInfo (raw : String) : TypeInfo :=
  { raw := raw
    isGeneric := hasChar raw '<'
    typeParameters := extractTypeParameters raw }

/-- The parameter list piece shared by the signature builders: each
parameter as name, an optional '?', ': ' and the type text, joined with
', ' (the JS sources repeat this map inline in buildFunctionSignature,
buildConstructorSignature and buildMethodSignature). -/
def buildParamList (params : List Param) : String :=
  joinSep ", " (params.map (fun p =>
    p.name ++ (if p.optional then "?" else "") ++ ": " ++ p.type))

/-- decl.getName() interpolated into a template literal: JavaScript
renders an undefined name as the string "undefined". -/
def jsNameOrUndefined (decl : Decl) : String :=
  match decl.getNameFn with
  | some (some n) => n
  | _ => "undefined"

/-- buildFunctionSignature (types.mjs): decl.getName?.() || 'anonymous'
falls back on a missing method, an undefined result or an empty name. -/
def buildFunctionSignature (decl : Decl) : String :=
  let name :=
    match decl.getNameFn with
    | some (some n) => if n = "" then "anonymous" else n
    | _ => "anonymous"
  let isAsync := if decl.isAsyncFn.getD false then "async " else ""
  isAsync ++ "function " ++ name ++ "(" ++ buildParamList decl.params ++ "): " ++
    decl.returnTypeText

/-- buildClassSignature (types.mjs). -/
def buildClassSignature (decl : Decl) : String :=
  let sig := "class " ++ jsNameOrUndefined decl
  let sig :=
    match decl.classInfo.baseClassName with
    | some b => sig ++ " extends " ++ b
    | none => sig
  if decl.classInfo.implementsTexts.length > 0 then
    sig ++ " implements " ++ joinSep ", " decl.classInfo.implementsTexts
  else sig

/-- buildInterfaceSignature (types.mjs): up to three member texts inline. -/
def buildInterfaceSignature (decl : Decl) : String :=
  let memberSigs := joinSep "; " ((decl.ifaceMembers.take 3).map (fun m => m.text))
  let more := if decl.ifaceMembers.length > 3 then "; ..." else ""
  "interface " ++ jsNameOrUndefined decl ++ " \x7b " ++ memberSigs ++ more ++ " \x7d"

/-- buildTypeAliasSignature (types.mjs). -/
def buildTypeAliasSignature (decl : Decl) : String :=
  "type " ++ jsNameOrUndefined decl ++ " = " ++ decl.typeText

/-- buildVariableSignature (types.mjs): the initializer is shown only
when its literal text is under 50 characters. -/
def buildVariableSignature (decl : Decl) : String :=
  match decl.initializer with
  | some initText =>
    if initText.length < 50 then
      "const " ++ jsNameOrUndefined decl ++ ": " ++ decl.typeText ++ " = " ++ initText
    else "const " ++ jsNameOrUndefined decl ++ ": " ++ decl.typeText
  | none => "const " ++ jsNameOrUndefined decl ++ ": " ++ decl.typeText

/-- buildSignature (types.mjs): dispatch on the raw kind name; the
fallback is the first 100 characters of the declaration's text. -/
def buildSignature (decl : Decl) : String :=
  match decl.kindName with
  | "FunctionDeclaration" => buildFunctionSignature decl
  | "MethodDeclaration" => buildFunctionSignature decl
  | "ArrowFunction" => buildFunctionSignature decl
  | "ClassDeclaration" => buildClassSignature decl
  | "InterfaceDeclaration" => buildInterfaceSignature decl
  | "TypeAliasDeclaration" => buildTypeAliasSignature decl
  | "VariableDeclaration" => buildVariableSignature decl
  | "EnumDeclaration" => "enum " ++ jsNameOrUndefined decl
  | _ => String.mk (decl.text.data.take 100)

/-! ## extractor.mjs -/

/-- The fallback half of getName: the declaration's associated symbol's
name when the node has a getSymbol method returning a symbol, else the
literal "default". -/
def getNameFromSymbol (decl : Decl) : String :=
  match decl.getSymbolFn with
  | some (some symName) => symName
  | _ => "default"

/-- getName (extractor.mjs): prefer a truthy decl.getName() (an empty
string is falsy in JS and falls through), then the symbol's name, then
"default". -/
def getName (decl : Decl) : String :=
  match decl.getNameFn with
  | some (some name) => if name = "" then getNameFromSymbol decl else name
  | _ => getNameFromSymbol decl

/-- checkPrivacy (extractor.mjs): a private or protected modifier when
the node has a hasModifier method, else the underscore naming
convention on the resolved name. -/
def checkPrivacy (decl : Decl) : Bool :=
  match decl.hasModifierFn with
  | some m =>
    if m.priv then true
    else if m.prot then true
    else jsStartsWith (getName decl) "_"
  | none => jsStartsWith (getName decl) "_"

/-- mapKind (extractor.mjs): the fixed table from ts-morph kind names to
normalized kinds; anything unmapped is "unknown". -/
def mapKind (kindName : String) : String :=
  if kindName = "FunctionDeclaration" then "function"
  else if kindName = "ArrowFunction" then "function"
  else if kindName = "MethodDeclaration" then "function"
  else if kindName = "ClassDeclaration" then "class"
  else if kindName = "InterfaceDeclaration" then "interface"
  else if kindName = "TypeAliasDeclaration" then "type"
  else if kindName = "VariableDeclaration" then "const"
  else if kindName = "EnumDeclaration" then "enum"
  else "unknown"

/-- getVisibility (extractor.mjs): member.hasModifier?.(...) — a node
without the method (none) yields undefined, hence "public". -/
def getVisibility (hasModifierFn : Option Modifiers) : String :=
  match hasModifierFn with
  | some m =>
    if m.priv then "private"
    else if m.prot then "protected"
    else "public"
  | none => "public"

/-- The kindOrder table of extractModule's sort comparator, with the JS
?? 99 default for kinds outside the table. -/
def kindOrder (kind : String) : Nat :=
  if kind = "type" then 0
  else if kind = "interface" then 1
  else if kind = "const" then 2
  else if kind = "function" then 3
  else if kind = "class" then 4
  else if kind = "enum" then 5
  else 99

/-- The sort comparator of extractModule (lines 39-53): kind priority
first, then localeCompare on names (lc is the localeCompare model). -/
def symbolCmp (lc : String → String → Ordering) (a b : Symbol) : Ordering :=
  if kindOrder a.kind ≠ kindOrder b.kind then compare (kindOrder a.kind) (kindOrder b.kind)
  else lc a.name b.name

/-- The boolean "a need not follow b" of the export sort. -/
def symbolLe (lc : String → String → Ordering) (a b : Symbol) : Bool :=
  ordNotGt (symbolCmp lc a b)

/-- The class-member sort comparator of extractClass (lines 312-317):
constructors first, then properties before methods, then localeCompare. -/
def memberCmp (lc : String → String → Ordering) (a b : Member) : Ordering :=
  if a.kind = "constructor" then .lt
  else if b.kind = "constructor" then .gt
  else if a.kind ≠ b.kind then (if a.kind = "property" then .lt else .gt)
  else lc a.name b.name

/-- The boolean "a need not follow b" of the member sort. -/
def memberLe (lc : String → String → Ordering) (a b : Member) : Bool :=
  ordNotGt (memberCmp lc a b)

/-- buildConstructorSignature (extractor.mjs). -/
def buildConstructorSignature (ctor : CtorDecl) : String :=
  "constructor(" ++ buildParamList ctor.params ++ ")"

/-- buildMethodSignature (extractor.mjs). -/
def buildMethodSignature (method : MethodDecl) : String :=
  method.name ++ "(" ++ buildParamList method.params ++ "): " ++ method.returnTypeText

/-- The member record extractClass pushes for the first constructor:
fixed visibility "public" and isStatic false. -/
def mkCtorMember (ctor : CtorDecl) : Member :=
  { kind := "constructor"
    name := "constructor"
    signature := buildConstructorSignature ctor
    visibility := "public"
    isStatic := false
    leadingComments := extractComments ctor.leadingCommentRanges
    jsDoc := extractJSDoc ctor.getJsDocsFn
    parameters := some (ctor.params.map (fun p =>
      { name := p.name, type := p.type, optional := p.optional })) }

/-- The member record extractClass pushes for a property. -/
def mkPropMember (prop : PropDecl) (vis : String) : Member :=
  { kind := "property"
    name := prop.name
    signature := prop.name ++ ": " ++ prop.typeText
    visibility := vis
    isStatic := prop.isStatic
    leadingComments := extractComments prop.leadingCommentRanges
    jsDoc := extractJSDoc prop.getJsDocsFn }

/-- The member record extractClass pushes for a method. -/
def mkMethodMember (method : MethodDecl) (vis : String) : Member :=
  { kind := "method"
    name := method.name
    signature := buildMethodSignature method
    visibility := vis
    isStatic := method.isStatic
    isAsync := some method.isAsync
    leadingComments := extractComments method.leadingCommentRanges
    jsDoc := extractJSDoc method.getJsDocsFn
    parameters := some (method.params.map (fun p =>
      { name := p.name, type := p.type, optional := p.optional }))
    returnType := some method.returnTypeText }

/-- The body of extractClass's property loop: skip when the variant is
public and the visibility (the local vis of the JS loop) is not public,
else the property's member record. -/
def mkPropEntry (variant : String) (prop : PropDecl) : Option Member :=
  if variant = "public" ∧ getVisibility prop.hasModifierFn ≠ "public" then none
  else some (mkPropMember prop (getVisibility prop.hasModifierFn))

/-- The body of extractClass's method loop. -/
def mkMethodEntry (variant : String) (method : MethodDecl) : Option Member :=
  if variant = "public" ∧ getVisibility method.hasModifierFn ≠ "public" then none
  else some (mkMethodMember method (getVisibility method.hasModifierFn))

/-- The members array extractClass builds before sorting: the first
constructor unconditionally if any, then properties and methods, each
kept only when public or the variant is internal. -/
def classRawMembers (decl : Decl) (variant : String) : List Member :=
  (match decl.classInfo.ctors.head? with
    | some ctor => [mkCtorMember ctor]
    | none => []) ++
  decl.classInfo.props.filterMap (mkPropEntry variant) ++
  decl.classInfo.methods.filterMap (mkMethodEntry variant)

/-- extractClass (extractor.mjs): base class, implements texts, then the
members array sorted with the member comparator. -/
def extractClass (lc : String → String → Ordering) (decl : Decl) (symbol : Symbol)
    (variant : String) : Symbol :=
  { symbol with
    baseClass := decl.classInfo.baseClassName
    interfaces := some decl.classInfo.implementsTexts
    members := some (jsSortBy (memberLe lc) (classRawMembers decl variant)) }

/-- extractFunction (extractor.mjs). -/
def extractFunction (decl : Decl) (symbol : Symbol) : Symbol :=
  { symbol with
    parameters := some (decl.params.map (fun p =>
      { name := p.name
        type := p.type
        optional := p.optional
        defaultValue := p.defaultValue
        comment := extractParamComment symbol.jsDoc p.name }))
    returnType := some decl.returnTypeText
    isAsync := some (decl.isAsyncFn.getD false) }

/-- extractInterface (extractor.mjs): member.getSymbol()?.getName() ||
'unknown' falls back on a missing symbol or a falsy (empty) name. -/
def extractInterface (decl : Decl) (symbol : Symbol) : Symbol :=
  { symbol with
    properties := some (decl.ifaceMembers.map (fun member =>
      { name :=
          match member.symbolName with
          | some n => if n = "" then "unknown" else n
          | none => "unknown"
        signature := member.text
        leadingComments := extractComments member.leadingCommentRanges })) }

/-- extractTypeAlias (extractor.mjs). -/
def extractTypeAlias (decl : Decl) (symbol : Symbol) : Symbol :=
  { symbol with typeInfo := some (extractTypeInfo decl.typeText) }

/-- extractConst (extractor.mjs). -/
def extractConst (decl : Decl) (symbol : Symbol) : Symbol :=
  { symbol with
    typeInfo := some (extractTypeInfo decl.typeText)
    value := decl.initializer }

/-- extractEnum (extractor.mjs). -/
def extractEnum (decl : Decl) (symbol : Symbol) : Symbol :=
  { symbol with
    enumValues := some (decl.enumMembers.map (fun m =>
      { name := m.name, value := m.value })) }

/-- extractSymbol (extractor.mjs): the privacy gate, the base record,
then kind dispatch. -/
def extractSymbol (lc : String → String → Ordering) (decl : Decl)
    (variant : String) : Option Symbol :=
  let isPrivate := checkPrivacy decl
  if variant = "public" ∧ isPrivate = true then none
  else
    let symbol : Symbol :=
      { kind := mapKind decl.kindName
        name := getName decl
        signature := buildSignature decl
        leadingComments := extractComments decl.leadingCommentRanges
        jsDoc := extractJSDoc decl.getJsDocsFn
        isPrivate := isPrivate }
    some (match symbol.kind with
      | "function" => extractFunction decl symbol
      | "class" => extractClass lc decl symbol variant
      | "interface" => extractInterface decl symbol
      | "type" => extractTypeAlias decl symbol
      | "const" => extractConst decl symbol
      | "enum" => extractEnum decl symbol
      | _ => symbol)

/-- stripExt: the replace(/\.(ts|tsx|js|jsx)$/, '') of deriveModuleName
(a string ends with at most one of the four suffixes). -/
def stripExt (s : String) : String :=
  if jsEndsWith s ".tsx" then String.mk (s.data.take (s.data.length - 4))
  else if jsEndsWith s ".jsx" then String.mk (s.data.take (s.data.length - 4))
  else if jsEndsWith s ".ts" then String.mk (s.data.take (s.data.length - 3))
  else if jsEndsWith s ".js" then String.mk (s.data.take (s.data.length - 3))
  else s

/-- deriveModuleName (extractor.mjs).  When the path's final segment is
itself "src" the JS indexes an empty array and throws a TypeError on the
undefined segment; none models that thrown path. -/
def deriveModuleName (filePath : String) : Option String :=
  let parts := jsSplit filePath '/'
  match jsLastIndexOf parts "src" with
  | some srcIndex =>
    let afterSrc := parts.drop (srcIndex + 1)
    match afterSrc.getLast? with
    | none => none
    | some last =>
      let stripped := afterSrc.dropLast ++ [stripExt last]
      let popped := if stripped.getLast? = some "index" then stripped.dropLast else stripped
      some (joinSep "." (popped.filter (fun p => p != "")))
  | none => some (stripExt (parts.getLastD ""))

/-- extractImports (extractor.mjs). -/
def extractImports (sourceFile : SourceFile) : List ImportRec :=
  sourceFile.importDeclarations.map (fun importDecl =>
    { module := importDecl.moduleSpecifier
      namedImports := importDecl.namedImports
      defaultImport := importDecl.defaultImport })

/-- extractModule (extractor.mjs): the Project/addSourceFileAtPath
collaborator is modelled by the already-parsed sourceFile argument.  The
nested loops over exported declarations push every non-null
extractSymbol result in order; the result is sorted with the symbol
comparator.  (On the thrown deriveModuleName path, unreachable for real
file paths, the module name defaults to "".) -/
def extractModule (lc : String → String → Ordering) (filePath : String)
    (sourceFile : SourceFile) (variant : String) : ExtractionResult :=
  let symbols :=
    ((sourceFile.exportedDeclarations.map (fun entry => entry.2)).flatten).filterMap
      (fun decl => extractSymbol lc decl variant)
  let sorted := jsSortBy (symbolLe lc) symbols
  { module := (deriveModuleName filePath).getD ""
    filePath := filePath
    exports := sorted
    imports := extractImports sourceFile
    metadata :=
      { hasDefaultExport := sourceFile.hasDefaultExport
        exportCount := sorted.length
        loc := sourceFile.endLineNumber } }

/-! ## Spec-side reference definitions (for refinement-style claims) -/

/-- The spec's description of extractParamComment, transcribed: of the
tags named param whose text contains the parameter name, the first one's
text. -/
def paramCommentSpec (jsDoc : Option JSDocInfo) (paramName : String) : Option String :=
  match jsDoc with
  | none => none
  | some jd =>
    ((jd.tags.filter (fun tag => tag.name == "param" && jsIncludes tag.text paramName)).head?).map
      (fun tag => tag.text)

/-- The amended description of the type-parameter decomposition: when the
text ends in '>' and at least one character stands strictly between the
first '<' and that final '>', the characters between them split on every
comma, each piece trimmed; the empty sequence otherwise.  (The claim's
"split on top-level commas" and its silence on texts not ending in '>'
are what the amendment changes.) -/
def typeParametersAmended (raw : String) : List String :=
  if raw.data.getLast? = some '>' then
    match raw.data.dropLast.dropWhile (fun c => c ≠ '<') with
    | [] => []
    | _ :: between =>
      if between = [] then []
      else (jsSplit (String.mk between) ',').map jsTrim
  else []

/-- The spec's "take the segments after the last sources-root segment",
transcribed as a direct recursion: none when no segment matches. -/
def segmentsAfterLast (marker : String) : List String → Option (List String)
  | [] => none
  | x :: t =>
    match segmentsAfterLast marker t with
    | some r => some r
    | none => if x = marker then some t else none

/-- The spec's description of the module-name derivation, transcribed:
split on '/', take the segments after the last "src"; strip the
extension from the final segment, drop it when it is then "index",
remove empty segments and join with '.'; with no "src" segment, the bare
filename without extension.  (A path whose last segment is "src" leaves
no final segment to strip; none mirrors the code's thrown TypeError
there.) -/
def deriveModuleNameSpec (filePath : String) : Option String :=
  let parts := jsSplit filePath '/'
  match segmentsAfterLast "src" parts with
  | some [] => none
  | some afterSrc =>
    let stripped := afterSrc.dropLast ++ [stripExt (afterSrc.getLastD "")]
    let popped := if stripped.getLast? = some "index" then stripped.dropLast else stripped
    some (joinSep "." (popped.filter (fun p => p != "")))
  | none => some (stripExt (parts.getLastD ""))

/-! ## Concrete fixtures used by the examples and witnesses -/

/-- export function greet(...): string of the spec's ordering example. -/
def greetDecl : Decl :=
  { kindName := "FunctionDeclaration"
    getNameFn := some (some "greet")
    hasModifierFn := some ⟨false, false⟩
    returnTypeText := "string" }

/-- export interface UserConfig of the spec's ordering example. -/
def userConfigDecl : Decl :=
  { kindName := "InterfaceDeclaration"
    getNameFn := some (some "UserConfig") }

/-- export const API_URL of the spec's ordering example. -/
def apiUrlDecl : Decl :=
  { kindName := "VariableDeclaration"
    getNameFn := some (some "API_URL")
    typeText := "string"
    initializer := some "'https://api.example.com'" }

/-- export type User of the spec's ordering example. -/
def userDecl : Decl :=
  { kindName := "TypeAliasDeclaration"
    getNameFn := some (some "User")
    typeText := "{ id: string; name: string; }" }

/-- export class DatabaseClient of the spec's ordering example. -/
def dbClientDecl : Decl :=
  { kindName := "ClassDeclaration"
    getNameFn := some (some "DatabaseClient")
    hasModifierFn := some ⟨false, false⟩ }

/-- export enum Status of the spec's ordering example. -/
def statusDecl : Decl :=
  { kindName := "EnumDeclaration"
    getNameFn := some (some "Status") }

/-- The source file of the spec's kind-priority ordering example, with
its exports in declaration order. -/
def c1File : SourceFile :=
  { exportedDeclarations :=
      [("greet", [greetDecl]), ("UserConfig", [userConfigDecl]),
       ("API_URL", [apiUrlDecl]), ("User", [userDecl]),
       ("DatabaseClient", [dbClientDecl]), ("Status", [statusDecl])] }

/-- A class exporting one property named _cache that carries no private
or protected modifier. -/
def underscorePropClassDecl : Decl :=
  { kindName := "ClassDeclaration"
    getNameFn := some (some "Cache")
    hasModifierFn := some ⟨false, false⟩
    classInfo :=
      { props := [{ name := "_cache", typeText := "string",
                    hasModifierFn := some ⟨false, false⟩ }] } }

/-- The class of the spec's member-ordering example: methods query and
connect, property connectionString. -/
def memberOrderClassDecl : Decl :=
  { kindName := "ClassDeclaration"
    getNameFn := some (some "DatabaseClient")
    hasModifierFn := some ⟨false, false⟩
    classInfo :=
      { props := [{ name := "connectionString", typeText := "string" }]
        methods := [{ name := "query", returnTypeText := "Promise<T[]>" },
                    { name := "connect", returnTypeText := "Promise<void>" }] } }

/-- A constructor declaration carrying a private modifier. -/
def privateCtorDecl : CtorDecl :=
  { params := [{ name := "cfg", type := "Config", optional := false }]
    hasModifierFn := some ⟨true, false⟩ }

/-- A class whose only constructor is the private one above. -/
def privateCtorClassDecl : Decl :=
  { kindName := "ClassDeclaration"
    getNameFn := some (some "Singleton")
    hasModifierFn := some ⟨false, false⟩
    classInfo :=
      { ctors := [privateCtorDecl]
        methods := [{ name := "getInstance", returnTypeText := "Singleton" }] } }

/-- A base symbol record as extractSymbol would hand to extractClass. -/
def plainClassBase : Symbol :=
  { kind := "class"
    name := "C"
    signature := "class C"
    leadingComments := []
    jsDoc := none
    isPrivate := false }

/-- A JSDoc record documenting a parameter named userId. -/
def userIdDoc : JSDocInfo :=
  { description := ""
    tags := [{ name := "param", text := "userId - the user id", type := none }] }

/-! ## Properties of the stable-sort model -/

theorem jsOrderedInsert_perm (le : α → α → Bool) (a : α) (l : List α) :
    (jsOrderedInsert le a l).Perm (a :: l) := by
  induction l with
  | nil => simp [jsOrderedInsert]
  | cons b t ih =>
    simp only [jsOrderedInsert]
    split
    · exact List.Perm.refl _
    · exact (ih.cons b).trans (List.Perm.swap a b t)

theorem jsSortBy_perm (le : α → α → Bool) (l : List α) : (jsSortBy le l).Perm l := by
  induction l with
  | nil => exact List.Perm.refl _
  | cons b t ih => exact (jsOrderedInsert_perm le b (jsSortBy le t)).trans (ih.cons b)

theorem mem_jsSortBy (le : α → α → Bool) (l : List α) (a : α) :
    a ∈ jsSortBy le l ↔ a ∈ l :=
  (jsSortBy_perm le l).mem_iff

theorem countP_jsSortBy (le : α → α → Bool) (p : α → Bool) (l : List α) :
    (jsSortBy le l).countP p = l.countP p :=
  (jsSortBy_perm le l).countP_eq p

theorem pairwise_jsOrderedInsert (le : α → α → Bool) (a : α) (l : List α)
    (hl : l.Pairwise (fun x y => le x y = true))
    (htot : ∀ x ∈ l, le a x = true ∨ le x a = true)
    (htrans : ∀ b ∈ l, ∀ x ∈ l, le a b = true → le b x = true → le a x = true) :
    (jsOrderedInsert le a l).Pairwise (fun x y => le x y = true) := by
  induction l with
  | nil => simp [jsOrderedInsert]
  | cons b t ih =>
    rw [List.pairwise_cons] at hl
    obtain ⟨hb, ht⟩ := hl
    simp only [jsOrderedInsert]
    split
    case isTrue hab =>
      refine List.Pairwise.cons ?_ (List.Pairwise.cons hb ht)
      intro x hx
      rcases List.mem_cons.mp hx with rfl | hx
      · exact hab
      · exact htrans b (List.mem_cons_self _ _) x (List.mem_cons_of_mem _ hx) hab (hb x hx)
    case isFalse hab =>
      have hba : le b a = true := by
        rcases htot b (List.mem_cons_self _ _) with h | h
        · exact absurd h hab
        · exact h
      refine List.Pairwise.cons ?_ ?_
      · intro x hx
        rcases List.mem_cons.mp ((jsOrderedInsert_perm le a t).mem_iff.mp hx) with rfl | hx2
        · exact hba
        · exact hb x hx2
      · exact ih ht (fun x hx => htot x (List.mem_cons_of_mem _ hx))
          (fun c hc x hx =>
            htrans c (List.mem_cons_of_mem _ hc) x (List.mem_cons_of_mem _ hx))

theorem pairwise_jsSortBy (le : α → α → Bool) (l : List α)
    (htot : ∀ x ∈ l, ∀ y ∈ l, le x y = true ∨ le y x = true)
    (htrans : ∀ x ∈ l, ∀ y ∈ l, ∀ z ∈ l,
      le x y = true → le y z = true → le x z = true) :
    (jsSortBy le l).Pairwise (fun x y => le x y = true) := by
  induction l with
  | nil => simp [jsSortBy]
  | cons b t ih =>
    have hmem : ∀ x ∈ jsSortBy le t, x ∈ t := fun x hx => (mem_jsSortBy le t x).mp hx
    simp only [jsSortBy]
    refine pairwise_jsOrderedInsert le b (jsSortBy le t) ?_ ?_ ?_
    · exact ih
        (fun x hx y hy =>
          htot x (List.mem_cons_of_mem _ hx) y (List.mem_cons_of_mem _ hy))
        (fun x hx y hy z hz =>
          htrans x (List.mem_cons_of_mem _ hx) y (List.mem_cons_of_mem _ hy)
            z (List.mem_cons_of_mem _ hz))
    · exact fun x hx =>
        htot b (List.mem_cons_self _ _) x (List.mem_cons_of_mem _ (hmem x hx))
    · exact fun c hc x hx =>
        htrans b (List.mem_cons_self _ _) c (List.mem_cons_of_mem _ (hmem c hc))
          x (List.mem_cons_of_mem _ (hmem x hx))

/-! ## The code-point comparator is a consistent comparator -/

theorem cmpCodepoints_swap (a b : List Char) :
    cmpCodepoints b a = (cmpCodepoints a b).swap := by
  induction a generalizing b with
  | nil => cases b <;> simp [cmpCodepoints, Ordering.swap]
  | cons x xs ih =>
    cases b with
    | nil => simp [cmpCodepoints, Ordering.swap]
    | cons y ys =>
      simp only [cmpCodepoints]
      rw [← Nat.compare_swap]
      rcases compare x.toNat y.toNat with _ | _ | _ <;> simp [Ordering.swap, ih]

theorem cmpCodepoints_trans (a b c : List Char)
    (h1 : cmpCodepoints a b ≠ .gt) (h2 : cmpCodepoints b c ≠ .gt) :
    cmpCodepoints a c ≠ .gt := by
  induction a generalizing b c with
  | nil => cases c <;> simp [cmpCodepoints]
  | cons x xs ih =>
    cases b with
    | nil => simp [cmpCodepoints] at h1
    | cons y ys =>
      cases c with
      | nil => simp [cmpCodepoints] at h2
      | cons z zs =>
        simp only [cmpCodepoints] at h1 h2 ⊢
        rcases hxy : compare x.toNat y.toNat with _ | _ | _ <;>
            rcases hyz : compare y.toNat z.toNat with _ | _ | _ <;>
            simp only [hxy, hyz] at h1 h2
        · have hxz : compare x.toNat z.toNat = .lt := by
            rw [Nat.compare_eq_lt] at hxy hyz ⊢
            omega
          simp [hxz]
        · have hxz : compare x.toNat z.toNat = .lt := by
            rw [Nat.compare_eq_lt] at hxy ⊢
            rw [Nat.compare_eq_eq] at hyz
            omega
          simp [hxz]
        · exact absurd rfl h2
        · have hxz : compare x.toNat z.toNat = .lt := by
            rw [Nat.compare_eq_eq] at hxy
            rw [Nat.compare_eq_lt] at hyz ⊢
            omega
          simp [hxz]
        · have hxz : compare x.toNat z.toNat = .eq := by
            rw [Nat.compare_eq_eq] at hxy hyz ⊢
            omega
          simp only [hxz]
          exact ih ys zs h1 h2
        · exact absurd rfl h2
        · exact absurd rfl h1
        · exact absurd rfl h1
        · exact absurd rfl h1

theorem lcCodepoint_total (a b : String) :
    lcCodepoint a b ≠ .gt ∨ lcCodepoint b a ≠ .gt := by
  unfold lcCodepoint
  rcases h : cmpCodepoints a.data b.data with _ | _ | _
  · exact Or.inl (by simp [h])
  · exact Or.inl (by simp [h])
  · refine Or.inr ?_
    rw [cmpCodepoints_swap]
    simp [h, Ordering.swap]

theorem lcCodepoint_trans (a b c : String)
    (h1 : lcCodepoint a b ≠ .gt) (h2 : lcCodepoint b c ≠ .gt) :
    lcCodepoint a c ≠ .gt :=
  cmpCodepoints_trans a.data b.data c.data h1 h2

/-! ## The export comparator is a consistent comparator -/

theorem ordNotGt_iff (o : Ordering) : ordNotGt o = true ↔ o ≠ .gt := by
  cases o <;> simp [ordNotGt]

theorem symbolLe_dest (lc : String → String → Ordering) (a b : Symbol)
    (h : symbolLe lc a b = true) :
    kindOrder a.kind < kindOrder b.kind ∨
      (kindOrder a.kind = kindOrder b.kind ∧ lc a.name b.name ≠ .gt) := by
  unfold symbolLe symbolCmp at h
  by_cases hne : kindOrder a.kind ≠ kindOrder b.kind
  · rw [if_pos hne] at h
    refine Or.inl ?_
    rcases hc : compare (kindOrder a.kind) (kindOrder b.kind) with _ | _ | _
    · exact Nat.compare_eq_lt.mp hc
    · exact absurd (Nat.compare_eq_eq.mp hc) hne
    · rw [hc] at h
      exact absurd h (by simp [ordNotGt])
  · rw [if_neg hne] at h
    exact Or.inr ⟨not_not.mp hne, (ordNotGt_iff _).mp h⟩

theorem symbolLe_total (lc : String → String → Ordering)
    (htot : ∀ x y : String, lc x y ≠ .gt ∨ lc y x ≠ .gt) (a b : Symbol) :
    symbolLe lc a b = true ∨ symbolLe lc b a = true := by
  unfold symbolLe symbolCmp
  by_cases he : kindOrder a.kind = kindOrder b.kind
  · rw [if_neg (not_not_intro he), if_neg (not_not_intro he.symm)]
    rcases htot a.name b.name with h | h
    · exact Or.inl ((ordNotGt_iff _).mpr h)
    · exact Or.inr ((ordNotGt_iff _).mpr h)
  · rw [if_pos he, if_pos (fun h => he h.symm)]
    rcases Nat.le_total (kindOrder a.kind) (kindOrder b.kind) with h | h
    · exact Or.inl ((ordNotGt_iff _).mpr (Nat.compare_ne_gt.mpr h))
    · exact Or.inr ((ordNotGt_iff _).mpr (Nat.compare_ne_gt.mpr h))

theorem symbolLe_trans (lc : String → String → Ordering)
    (htrans : ∀ x y z : String, lc x y ≠ .gt → lc y z ≠ .gt → lc x z ≠ .gt)
    (a b c : Symbol) (h1 : symbolLe lc a b = true) (h2 : symbolLe lc b c = true) :
    symbolLe lc a c = true := by
  have d1 := symbolLe_dest lc a b h1
  have d2 := symbolLe_dest lc b c h2
  unfold symbolLe symbolCmp
  by_cases he : kindOrder a.kind = kindOrder c.kind
  · rw [if_neg (not_not_intro he)]
    rcases d1 with d1 | ⟨e1, l1⟩
    · rcases d2 with d2 | ⟨e2, _⟩
      · omega
      · omega
    · rcases d2 with d2 | ⟨e2, l2⟩
      · omega
      · have : a.name = a.name := rfl
        exact (ordNotGt_iff _).mpr (htrans a.name b.name c.name l1 l2)
  · rw [if_pos he]
    refine (ordNotGt_iff _).mpr (Nat.compare_ne_gt.mpr ?_)
    rcases d1 with d1 | ⟨e1, _⟩ <;> rcases d2 with d2 | ⟨e2, _⟩ <;> omega

/-! ## The member comparator is consistent on member lists extractClass builds -/

/-- The member kinds extractClass produces. -/
def memberKindOk (m : Member) : Prop :=
  m.kind = "constructor" ∨ m.kind = "property" ∨ m.kind = "method"

theorem memberLe_total (lc : String → String → Ordering)
    (htot : ∀ x y : String, lc x y ≠ .gt ∨ lc y x ≠ .gt) (a b : Member)
    (ha : memberKindOk a) (hb : memberKindOk b) :
    memberLe lc a b = true ∨ memberLe lc b a = true := by
  unfold memberLe memberCmp
  by_cases hac : a.kind = "constructor"
  · rw [if_pos hac]
    exact Or.inl rfl
  · by_cases hbc : b.kind = "constructor"
    · refine Or.inr ?_
      rw [if_pos hbc]
      rfl
    · rw [if_neg hac, if_neg hbc, if_neg hbc, if_neg hac]
      by_cases hk : a.kind = b.kind
      · rw [if_neg (not_not_intro hk), if_neg (not_not_intro hk.symm)]
        rcases htot a.name b.name with h | h
        · exact Or.inl ((ordNotGt_iff _).mpr h)
        · exact Or.inr ((ordNotGt_iff _).mpr h)
      · rw [if_pos hk, if_pos (fun h => hk h.symm)]
        rcases ha with ha | ha | ha
        · exact absurd ha hac
        · rw [if_pos ha]
          exact Or.inl rfl
        · rcases hb with hb | hb | hb
          · exact absurd hb hbc
          · rw [if_pos hb]
            exact Or.inr rfl
          · exact absurd (ha.trans hb.symm) hk

theorem memberLe_trans (lc : String → String → Ordering)
    (htrans : ∀ x y z : String, lc x y ≠ .gt → lc y z ≠ .gt → lc x z ≠ .gt)
    (a b c : Member) (ha : memberKindOk a) (hb : memberKindOk b) (hc : memberKindOk c)
    (h1 : memberLe lc a b = true) (h2 : memberLe lc b c = true) :
    memberLe lc a c = true := by
  by_cases hac : a.kind = "constructor"
  · unfold memberLe memberCmp
    rw [if_pos hac]
    rfl
  · have hbc : b.kind ≠ "constructor" := by
      intro hbk
      unfold memberLe memberCmp at h1
      rw [if_neg hac, if_pos hbk] at h1
      exact absurd h1 (by simp [ordNotGt])
    have hcc : c.kind ≠ "constructor" := by
      intro hck
      unfold memberLe memberCmp at h2
      rw [if_neg hbc, if_pos hck] at h2
      exact absurd h2 (by simp [ordNotGt])
    replace ha : a.kind = "property" ∨ a.kind = "method" := ha.resolve_left hac
    replace hb : b.kind = "property" ∨ b.kind = "method" := hb.resolve_left hbc
    replace hc : c.kind = "property" ∨ c.kind = "method" := hc.resolve_left hcc
    unfold memberLe memberCmp at h1 h2 ⊢
    rw [if_neg hac, if_neg hbc] at h1
    rw [if_neg hbc, if_neg hcc] at h2
    rw [if_neg hac, if_neg hcc]
    rcases ha with ha | ha <;> rcases hb with hb | hb <;> rcases hc with hc | hc
    · rw [if_neg (not_not_intro (ha.trans hc.symm))]
      rw [if_neg (not_not_intro (ha.trans hb.symm))] at h1
      rw [if_neg (not_not_intro (hb.trans hc.symm))] at h2
      exact (ordNotGt_iff _).mpr
        (htrans a.name b.name c.name ((ordNotGt_iff _).mp h1) ((ordNotGt_iff _).mp h2))
    · rw [if_pos (by rw [ha, hc]; decide), if_pos ha]
      rfl
    · rw [if_pos (by rw [hb, hc]; decide), if_neg (by rw [hb]; decide)] at h2
      exact absurd h2 (by simp [ordNotGt])
    · rw [if_pos (by rw [ha, hc]; decide), if_pos ha]
      rfl
    · rw [if_pos (by rw [ha, hb]; decide), if_neg (by rw [ha]; decide)] at h1
      exact absurd h1 (by simp [ordNotGt])
    · rw [if_pos (by rw [ha, hb]; decide), if_neg (by rw [ha]; decide)] at h1
      exact absurd h1 (by simp [ordNotGt])
    · rw [if_pos (by rw [hb, hc]; decide), if_neg (by rw [hb]; decide)] at h2
      exact absurd h2 (by simp [ordNotGt])
    · rw [if_neg (not_not_intro (ha.trans hc.symm))]
      rw [if_neg (not_not_intro (ha.trans hb.symm))] at h1
      rw [if_neg (not_not_intro (hb.trans hc.symm))] at h2
      exact (ordNotGt_iff _).mpr
        (htrans a.name b.name c.name ((ordNotGt_iff _).mp h1) ((ordNotGt_iff _).mp h2))

/-! ## Structure of the member list extractClass builds -/

theorem mkPropEntry_some (variant : String) (prop : PropDecl) (m : Member)
    (h : mkPropEntry variant prop = some m) :
    m = mkPropMember prop (getVisibility prop.hasModifierFn) ∧
      (variant = "public" → getVisibility prop.hasModifierFn = "public") := by
  unfold mkPropEntry at h
  split at h
  case isTrue => exact absurd h (by simp)
  case isFalse hneg =>
    cases Option.some.inj h
    refine ⟨rfl, fun hv => ?_⟩
    by_contra hne
    exact hneg ⟨hv, hne⟩

theorem mkMethodEntry_some (variant : String) (method : MethodDecl) (m : Member)
    (h : mkMethodEntry variant method = some m) :
    m = mkMethodMember method (getVisibility method.hasModifierFn) ∧
      (variant = "public" → getVisibility method.hasModifierFn = "public") := by
  unfold mkMethodEntry at h
  split at h
  case isTrue => exact absurd h (by simp)
  case isFalse hneg =>
    cases Option.some.inj h
    refine ⟨rfl, fun hv => ?_⟩
    by_contra hne
    exact hneg ⟨hv, hne⟩

theorem classRawMembers_kindOk (decl : Decl) (variant : String) :
    ∀ m ∈ classRawMembers decl variant, memberKindOk m := by
  intro m hm
  unfold classRawMembers at hm
  simp only [List.mem_append] at hm
  rcases hm with (hm | hm) | hm
  · rcases hh : decl.classInfo.ctors.head? with _ | ctor <;> rw [hh] at hm
    · simp at hm
    · simp only [List.mem_singleton] at hm
      subst hm
      exact Or.inl rfl
  · rcases List.mem_filterMap.mp hm with ⟨prop, _, hp⟩
    rw [(mkPropEntry_some variant prop m hp).1]
    exact Or.inr (Or.inl rfl)
  · rcases List.mem_filterMap.mp hm with ⟨method, _, hp⟩
    rw [(mkMethodEntry_some variant method m hp).1]
    exact Or.inr (Or.inr rfl)

theorem countP_ctor_props (variant : String) (l : List PropDecl) :
    (l.filterMap (mkPropEntry variant)).countP
      (fun m => decide (m.kind = "constructor")) = 0 := by
  rw [List.countP_eq_zero]
  intro m hm
  rcases List.mem_filterMap.mp hm with ⟨prop, _, hpm⟩
  rw [(mkPropEntry_some variant prop m hpm).1]
  simp [mkPropMember]

theorem countP_ctor_methods (variant : String) (l : List MethodDecl) :
    (l.filterMap (mkMethodEntry variant)).countP
      (fun m => decide (m.kind = "constructor")) = 0 := by
  rw [List.countP_eq_zero]
  intro m hm
  rcases List.mem_filterMap.mp hm with ⟨method, _, hpm⟩
  rw [(mkMethodEntry_some variant method m hpm).1]
  simp [mkMethodMember]

theorem classRawMembers_countP_ctor (decl : Decl) (variant : String) :
    (classRawMembers decl variant).countP (fun m => decide (m.kind = "constructor")) ≤ 1 := by
  unfold classRawMembers
  rw [List.countP_append, List.countP_append]
  rw [countP_ctor_props, countP_ctor_methods]
  rcases hh : decl.classInfo.ctors.head? with _ | ctor
  · simp
  · simp [mkCtorMember, List.countP_cons]

theorem classRawMembers_public_vis (decl : Decl) :
    ∀ m ∈ classRawMembers decl "public", m.visibility = "public" := by
  intro m hm
  unfold classRawMembers at hm
  simp only [List.mem_append] at hm
  rcases hm with (hm | hm) | hm
  · rcases hh : decl.classInfo.ctors.head? with _ | ctor <;> rw [hh] at hm
    · simp at hm
    · simp only [List.mem_singleton] at hm
      subst hm
      rfl
  · rcases List.mem_filterMap.mp hm with ⟨prop, _, hp⟩
    obtain ⟨rfl, hv⟩ := mkPropEntry_some "public" prop m hp
    simpa [mkPropMember] using hv rfl
  · rcases List.mem_filterMap.mp hm with ⟨method, _, hp⟩
    obtain ⟨rfl, hv⟩ := mkMethodEntry_some "public" method m hp
    simpa [mkMethodMember] using hv rfl

/-- A sorted member list with at most one constructor record has any
constructor record at its head. -/
theorem ctor_head_of_sorted (lc : String → String → Ordering) (ms : List Member)
    (hp : ms.Pairwise (fun a b => memberLe lc a b = true))
    (hcount : ms.countP (fun m => decide (m.kind = "constructor")) ≤ 1) :
    ∀ m ∈ ms, m.kind = "constructor" → ms.head? = some m := by
  intro m hm hk
  cases ms with
  | nil => exact absurd hm (by simp)
  | cons h t =>
    rcases List.mem_cons.mp hm with rfl | hmt
    · rfl
    · exfalso
      rw [List.pairwise_cons] at hp
      have hle := hp.1 m hmt
      have hh : h.kind = "constructor" := by
        unfold memberLe memberCmp at hle
        by_cases hhc : h.kind = "constructor"
        · exact hhc
        · rw [if_neg hhc, if_pos hk] at hle
          exact absurd hle (by simp [ordNotGt])
      have h1 : (1 : Nat) ≤ t.countP (fun m => decide (m.kind = "constructor")) := by
        have : 0 < t.countP (fun m => decide (m.kind = "constructor")) :=
          List.countP_pos_iff.mpr ⟨m, hmt, by simp [hk]⟩
        omega
      rw [List.countP_cons, if_pos (by simp [hh])] at hcount
      omega

/-- The members extractClass returns: sorted, a permutation of the raw
member list, all of constructor/property/method kind, at most one
constructor. -/
theorem extractClass_members_spec (lc : String → String → Ordering)
    (htot : ∀ x y : String, lc x y ≠ .gt ∨ lc y x ≠ .gt)
    (htrans : ∀ x y z : String, lc x y ≠ .gt → lc y z ≠ .gt → lc x z ≠ .gt)
    (decl : Decl) (symbol : Symbol) (variant : String) :
    ∃ ms, (extractClass lc decl symbol variant).members = some ms ∧
      ms.Pairwise (fun a b => memberLe lc a b = true) ∧
      ms.Perm (classRawMembers decl variant) ∧
      (∀ m ∈ ms, memberKindOk m) ∧
      ms.countP (fun m => decide (m.kind = "constructor")) ≤ 1 := by
  refine ⟨jsSortBy (memberLe lc) (classRawMembers decl variant), rfl, ?_, ?_, ?_, ?_⟩
  · exact pairwise_jsSortBy (memberLe lc) (classRawMembers decl variant)
      (fun x hx y hy =>
        memberLe_total lc htot x y
          (classRawMembers_kindOk decl variant x hx)
          (classRawMembers_kindOk decl variant y hy))
      (fun x hx y hy z hz =>
        memberLe_trans lc htrans x y z
          (classRawMembers_kindOk decl variant x hx)
          (classRawMembers_kindOk decl variant y hy)
          (classRawMembers_kindOk decl variant z hz))
  · exact jsSortBy_perm _ _
  · exact fun m hm =>
      classRawMembers_kindOk decl variant m ((mem_jsSortBy _ _ m).mp hm)
  · rw [countP_jsSortBy]
    exact classRawMembers_countP_ctor decl variant

/-! ## Structure of extractSymbol and extractModule -/

theorem extractSymbol_eq_none_iff (lc : String → String → Ordering) (decl : Decl)
    (variant : String) :
    extractSymbol lc decl variant = none ↔
      (variant = "public" ∧ checkPrivacy decl = true) := by
  simp only [extractSymbol]
  split
  case isTrue h => exact iff_of_true rfl h
  case isFalse h => exact iff_of_false (by simp) h

theorem extractSymbol_internal_isSome (lc : String → String → Ordering) (decl : Decl) :
    (extractSymbol lc decl "internal").isSome = true := by
  simp only [extractSymbol]
  rw [if_neg (by simp)]
  rfl

theorem extractSymbol_public_ok (lc : String → String → Ordering) (decl : Decl) (s : Symbol)
    (h : extractSymbol lc decl "public" = some s) :
    s.isPrivate = false ∧
      (∀ ms, s.members = some ms → ∀ m ∈ ms, m.visibility = "public") := by
  simp only [extractSymbol] at h
  split at h
  case isTrue hc => exact absurd h (by simp)
  case isFalse hc =>
    have hpriv : checkPrivacy decl = false := by
      cases hb : checkPrivacy decl
      · rfl
      · exact absurd (by simp [hb]) hc
    have hs := Option.some.inj h
    subst hs
    split
    · constructor
      · simp [extractFunction, hpriv]
      · intro ms hms
        simp [extractFunction] at hms
    · constructor
      · simp [extractClass, hpriv]
      · intro ms hms m hm
        simp only [extractClass] at hms
        cases Option.some.inj hms
        exact classRawMembers_public_vis decl m ((mem_jsSortBy _ _ m).mp hm)
    · constructor
      · simp [extractInterface, hpriv]
      · intro ms hms
        simp [extractInterface] at hms
    · constructor
      · simp [extractTypeAlias, hpriv]
      · intro ms hms
        simp [extractTypeAlias] at hms
    · constructor
      · simp [extractConst, hpriv]
      · intro ms hms
        simp [extractConst] at hms
    · constructor
      · simp [extractEnum, hpriv]
      · intro ms hms
        simp [extractEnum] at hms
    · constructor
      · simp [hpriv]
      · intro ms hms
        simp at hms

theorem exports_mem_imp (lc : String → String → Ordering) (filePath : String)
    (sf : SourceFile) (variant : String) (s : Symbol)
    (h : s ∈ (extractModule lc filePath sf variant).exports) :
    ∃ decl, extractSymbol lc decl variant = some s := by
  unfold extractModule at h
  dsimp only at h
  rw [mem_jsSortBy] at h
  rcases List.mem_filterMap.mp h with ⟨decl, _, hd⟩
  exact ⟨decl, hd⟩

theorem exports_sorted (lc : String → String → Ordering)
    (htot : ∀ x y : String, lc x y ≠ .gt ∨ lc y x ≠ .gt)
    (htrans : ∀ x y z : String, lc x y ≠ .gt → lc y z ≠ .gt → lc x z ≠ .gt)
    (filePath : String) (sf : SourceFile) (variant : String) :
    (extractModule lc filePath sf variant).exports.Pairwise
      (fun a b => symbolLe lc a b = true) := by
  unfold extractModule
  dsimp only
  exact pairwise_jsSortBy _ _ (fun x _ y _ => symbolLe_total lc htot x y)
    (fun x _ y _ z _ h1 h2 => symbolLe_trans lc htrans x y z h1 h2)

/-! ## Remaining auxiliary lemmas -/

theorem checkPrivacy_iff (decl : Decl) :
    checkPrivacy decl = true ↔
      ((∃ m, decl.hasModifierFn = some m ∧ (m.priv = true ∨ m.prot = true)) ∨
        jsStartsWith (getName decl) "_" = true) := by
  unfold checkPrivacy
  rcases hm : decl.hasModifierFn with _ | m
  · simp
  · rcases hp : m.priv with _ | _ <;> rcases hq : m.prot with _ | _ <;> simp [hp, hq]

theorem memberLe_method_property (lc : String → String → Ordering) (a b : Member)
    (hle : memberLe lc a b = true) : ¬(a.kind = "method" ∧ b.kind = "property") := by
  rintro ⟨ha, hb⟩
  unfold memberLe memberCmp at hle
  rw [if_neg (by rw [ha]; decide), if_neg (by rw [hb]; decide),
    if_pos (by rw [ha, hb]; decide), if_neg (by rw [ha]; decide)] at hle
  exact absurd hle (by simp [ordNotGt])

theorem memberLe_same_kind (lc : String → String → Ordering) (a b : Member)
    (hle : memberLe lc a b = true) (hk : a.kind = b.kind) (hc : a.kind ≠ "constructor") :
    lc a.name b.name ≠ .gt := by
  unfold memberLe memberCmp at hle
  rw [if_neg hc, if_neg (fun h => hc (hk.trans h)), if_neg (not_not_intro hk)] at hle
  exact (ordNotGt_iff _).mp hle

theorem mkPropEntry_internal (prop : PropDecl) :
    mkPropEntry "internal" prop =
      some (mkPropMember prop (getVisibility prop.hasModifierFn)) := by
  unfold mkPropEntry
  rw [if_neg (by simp)]

theorem mkMethodEntry_internal (method : MethodDecl) :
    mkMethodEntry "internal" method =
      some (mkMethodMember method (getVisibility method.hasModifierFn)) := by
  unfold mkMethodEntry
  rw [if_neg (by simp)]

theorem classRawMembers_internal_names (decl : Decl) :
    (classRawMembers decl "internal").map (fun m => m.name) =
      (match decl.classInfo.ctors.head? with
        | some _ => ["constructor"]
        | none => []) ++
      decl.classInfo.props.map (fun p => p.name) ++
      decl.classInfo.methods.map (fun m => m.name) := by
  unfold classRawMembers
  rw [List.map_append, List.map_append]
  have hp : (decl.classInfo.props.filterMap (mkPropEntry "internal")).map
      (fun m => m.name) = decl.classInfo.props.map (fun p => p.name) := by
    induction decl.classInfo.props with
    | nil => rfl
    | cons p t ih =>
      rw [List.filterMap_cons, mkPropEntry_internal]
      simpa [mkPropMember] using ih
  have hq : (decl.classInfo.methods.filterMap (mkMethodEntry "internal")).map
      (fun m => m.name) = decl.classInfo.methods.map (fun m => m.name) := by
    induction decl.classInfo.methods with
    | nil => rfl
    | cons p t ih =>
      rw [List.filterMap_cons, mkMethodEntry_internal]
      simpa [mkMethodMember] using ih
  rw [hp, hq]
  rcases hh : decl.classInfo.ctors.head? with _ | ctor <;> simp [mkCtorMember]

theorem find?_eq_head?_filter (p : α → Bool) (l : List α) :
    l.find? p = (l.filter p).head? := by
  induction l with
  | nil => rfl
  | cons a t ih =>
    by_cases h : p a
    · rw [List.find?_cons_of_pos _ h, List.filter_cons_of_pos h]
      rfl
    · rw [List.find?_cons_of_neg _ h, List.filter_cons_of_neg h, ih]

theorem lastIndexOfAux_shift (x : String) (l : List String) (i : Nat) :
    lastIndexOfAux x l i = (lastIndexOfAux x l 0).map (fun j => j + i) := by
  induction l generalizing i with
  | nil => rfl
  | cons y t ih =>
    simp only [lastIndexOfAux]
    rw [ih (i + 1), ih 1]
    rcases lastIndexOfAux x t 0 with _ | j
    · simp only [Option.map_none']
      split <;> simp
    · simp only [Option.map_some']
      congr 1
      omega

theorem segmentsAfterLast_eq (x : String) (l : List String) :
    segmentsAfterLast x l = (jsLastIndexOf l x).map (fun i => l.drop (i + 1)) := by
  induction l with
  | nil => rfl
  | cons y t ih =>
    unfold jsLastIndexOf at ih ⊢
    simp only [segmentsAfterLast, lastIndexOfAux]
    rw [lastIndexOfAux_shift x t 1, ih]
    rcases lastIndexOfAux x t 0 with _ | j
    · simp only [Option.map_none']
      split <;> simp
    · simp only [Option.map_some']
      rfl

theorem deriveModuleName_eq_spec (p : String) :
    deriveModuleName p = deriveModuleNameSpec p := by
  simp only [deriveModuleName, deriveModuleNameSpec]
  rw [segmentsAfterLast_eq]
  rcases h : jsLastIndexOf (jsSplit p '/') "src" with _ | i
  · simp only [Option.map_none']
  · simp only [Option.map_some']
    rcases ha : (jsSplit p '/').drop (i + 1) with _ | ⟨a, t⟩
    · simp
    · rcases hl : (a :: t).getLast? with _ | v
      · simp at hl
      · simp only [List.getLastD_eq_getLast?, hl, Option.getD_some]

theorem angleScan_eq_dropWhile (cs : List Char) (hall : cs.all jsDotChar = true) :
    angleScan cs =
      (match cs.dropWhile (fun c => c ≠ '<') with
        | [] => none
        | _ :: r => if r = [] then none else some r) := by
  induction cs with
  | nil => rfl
  | cons c t ih =>
    rw [List.all_cons, Bool.and_eq_true] at hall
    by_cases hc : c = '<'
    · subst hc
      rcases t with _ | ⟨b, t2⟩
      · simp [angleScan, List.dropWhile_cons]
      · simp [angleScan, List.dropWhile_cons, hall.2]
    · simp [angleScan, List.dropWhile_cons, hc, ih hall.2]

theorem extractTypeParameters_amended_eq (raw : String)
    (hnl : raw.data.all jsDotChar = true) :
    extractTypeParameters raw = typeParametersAmended raw := by
  have hall : raw.data.dropLast.all jsDotChar = true := by
    rw [List.all_eq_true] at hnl ⊢
    exact fun x hx => hnl x (List.dropLast_subset _ hx)
  unfold extractTypeParameters typeParametersAmended jsMatchAngle
  by_cases hg : raw.data.getLast? = some '>'
  · rw [if_pos hg, angleScan_eq_dropWhile _ hall]
    by_cases hlt : hasChar raw '<' = true
    · rw [if_neg (by simp [hlt]), if_pos hg]
      rcases hd : raw.data.dropLast.dropWhile (fun c => c ≠ '<') with _ | ⟨c0, between⟩
      · rfl
      · dsimp only
        by_cases hb : between = []
        · rw [if_pos hb, if_pos hb]
          rfl
        · rw [if_neg hb, if_neg hb]
          rfl
    · rw [if_pos (by simp [hlt]), if_pos hg]
      have hnm : raw.data.dropLast.dropWhile (fun c => c ≠ '<') = [] := by
        rw [List.dropWhile_eq_nil_iff]
        intro x hx
        have hx2 : x ∈ raw.data := List.dropLast_subset _ hx
        simp only [ne_eq, decide_eq_true_eq]
        intro hxe
        subst hxe
        exact hlt (by simpa [hasChar, List.contains, List.elem_iff] using hx2)
      rw [hnm]
  · by_cases hlt : hasChar raw '<' = true
    · rw [if_neg (by simp [hlt]), if_neg hg, if_neg hg]
    · rw [if_pos (by simp [hlt]), if_neg hg]

/-! ## The claims -/

/-- Claim C1: for every input file and variant, the exports sequence is
sorted by the fixed kind priority type(0) < interface(1) < const(2) <
function(3) < class(4) < enum(5) < unknown(99), records of equal kind in
ascending localeCompare order of their names (lc is any consistent
localeCompare); and the spec's example file is emitted in the order User,
UserConfig, API_URL, greet, DatabaseClient, Status. -/
theorem c1_export_ordering (lc : String → String → Ordering)
    (htot : ∀ x y : String, lc x y ≠ .gt ∨ lc y x ≠ .gt)
    (htrans : ∀ x y z : String, lc x y ≠ .gt → lc y z ≠ .gt → lc x z ≠ .gt) :
    (∀ (filePath : String) (sf : SourceFile) (variant : String),
      (extractModule lc filePath sf variant).exports.Pairwise (fun a b =>
        kindOrder a.kind < kindOrder b.kind ∨
          (kindOrder a.kind = kindOrder b.kind ∧ lc a.name b.name ≠ .gt))) ∧
    (extractModule lc "/home/user/project/src/sample.ts" c1File "public").exports.map
        (fun s => s.name) =
      ["User", "UserConfig", "API_URL", "greet", "DatabaseClient", "Status"] := by
  constructor
  · intro fp sf v
    exact (exports_sorted lc htot htrans fp sf v).imp (fun h => symbolLe_dest lc _ _ h)
  · rfl

/-- Witness for C1 at the spec's example file with the code-point
comparator. -/
theorem c1_export_ordering_witness :
    (extractModule lcCodepoint "/home/user/project/src/sample.ts" c1File "public").exports.Pairwise
      (fun a b =>
        kindOrder a.kind < kindOrder b.kind ∨
          (kindOrder a.kind = kindOrder b.kind ∧ lcCodepoint a.name b.name ≠ .gt)) :=
  (c1_export_ordering lcCodepoint lcCodepoint_total lcCodepoint_trans).1
    "/home/user/project/src/sample.ts" c1File "public"

/-- Counterexample to C2 as stated: a class property named _cache with no
private or protected modifier is retained (with visibility "public") in
the public variant's member list, not excluded. -/
theorem c2_underscore_member_counterexample :
    ((extractSymbol lcCodepoint underscorePropClassDecl "public").bind
        (fun s => s.members)).map (fun ms => ms.map (fun m => (m.name, m.visibility))) =
      some [("_cache", "public")] := rfl

/-- Claim C2 (amended): in the public variant no export has isPrivate and
every class member has visibility "public" — members are excluded exactly
by their private/protected modifiers, so an underscore-named member
without one is retained — and in the internal variant every symbol and
every member is present. -/
theorem c2_visibility_amended :
    (∀ (lc : String → String → Ordering) (filePath : String) (sf : SourceFile) (s : Symbol),
      s ∈ (extractModule lc filePath sf "public").exports →
        s.isPrivate = false ∧
          ∀ ms, s.members = some ms → ∀ m ∈ ms, m.visibility = "public") ∧
    (∀ (lc : String → String → Ordering) (decl : Decl),
      (extractSymbol lc decl "internal").isSome = true) ∧
    (∀ (lc : String → String → Ordering) (decl : Decl) (base : Symbol),
      ∃ ms, (extractClass lc decl base "internal").members = some ms ∧
        List.Perm (ms.map (fun m => m.name))
          ((match decl.classInfo.ctors.head? with
            | some _ => ["constructor"]
            | none => []) ++
            decl.classInfo.props.map (fun p => p.name) ++
            decl.classInfo.methods.map (fun m => m.name))) := by
  refine ⟨?_, ?_, ?_⟩
  · intro lc fp sf s hs
    obtain ⟨d, hd⟩ := exports_mem_imp lc fp sf "public" s hs
    exact extractSymbol_public_ok lc d s hd
  · exact fun lc decl => extractSymbol_internal_isSome lc decl
  · intro lc decl base
    refine ⟨_, rfl, ?_⟩
    rw [← classRawMembers_internal_names decl]
    exact (jsSortBy_perm (memberLe lc) (classRawMembers decl "internal")).map _

/-- Claim C3: classification returns null exactly when the variant is
public and the declaration is private; privacy holds exactly for a
private or protected modifier or an underscore-prefixed resolved name;
under the internal variant nothing is excluded. -/
theorem c3_privacy_gate (lc : String → String → Ordering) (decl : Decl) (variant : String) :
    (extractSymbol lc decl variant = none ↔
      (variant = "public" ∧ checkPrivacy decl = true)) ∧
    (checkPrivacy decl = true ↔
      ((∃ m, decl.hasModifierFn = some m ∧ (m.priv = true ∨ m.prot = true)) ∨
        jsStartsWith (getName decl) "_" = true)) ∧
    (extractSymbol lc decl "internal").isSome = true :=
  ⟨extractSymbol_eq_none_iff lc decl variant, checkPrivacy_iff decl,
    extractSymbol_internal_isSome lc decl⟩

/-- Claim C4: the derived module name follows the spec's algorithm (split
on '/', segments after the last "src", strip the extension, drop a
trailing "index", join non-empty segments with '.'; else the bare
filename without extension), and the three spec examples evaluate as
stated. -/
theorem c4_module_name_derivation :
    (∀ filePath : String, deriveModuleName filePath = deriveModuleNameSpec filePath) ∧
    deriveModuleName "/home/user/project/src/db/client.ts" = some "db.client" ∧
    deriveModuleName "/home/user/project/src/index.ts" = some "" ∧
    deriveModuleName "/home/user/auth.ts" = some "auth" :=
  ⟨deriveModuleName_eq_spec, rfl, rfl, rfl⟩

/-- Claim C5: in every extracted class's members a constructor record
comes first, no method precedes a property, records of equal
non-constructor kind are in ascending localeCompare name order; and the
spec's example class yields connectionString, connect, query. -/
theorem c5_member_ordering (lc : String → String → Ordering)
    (htot : ∀ x y : String, lc x y ≠ .gt ∨ lc y x ≠ .gt)
    (htrans : ∀ x y z : String, lc x y ≠ .gt → lc y z ≠ .gt → lc x z ≠ .gt) :
    (∀ (decl : Decl) (base : Symbol) (variant : String),
      ∃ ms, (extractClass lc decl base variant).members = some ms ∧
        (∀ m ∈ ms, m.kind = "constructor" → ms.head? = some m) ∧
        ms.Pairwise (fun a b => ¬(a.kind = "method" ∧ b.kind = "property")) ∧
        ms.Pairwise (fun a b =>
          a.kind = b.kind → a.kind ≠ "constructor" → lc a.name b.name ≠ .gt)) ∧
    ((extractSymbol lcCodepoint memberOrderClassDecl "public").bind
        (fun s => s.members)).map (fun ms => ms.map (fun m => m.name)) =
      some ["connectionString", "connect", "query"] := by
  constructor
  · intro decl base variant
    obtain ⟨ms, heq, hpair, hperm, hok, hcount⟩ :=
      extractClass_members_spec lc htot htrans decl base variant
    refine ⟨ms, heq, ?_, ?_, ?_⟩
    · exact ctor_head_of_sorted lc ms hpair hcount
    · exact hpair.imp (fun h => memberLe_method_property lc _ _ h)
    · exact hpair.imp (fun h hk hc => memberLe_same_kind lc _ _ h hk hc)
  · rfl

/-- Witness for C5 at the spec's example class with the code-point
comparator. -/
theorem c5_member_ordering_witness :
    ∃ ms, (extractClass lcCodepoint memberOrderClassDecl plainClassBase "public").members =
        some ms ∧
      (∀ m ∈ ms, m.kind = "constructor" → ms.head? = some m) ∧
      ms.Pairwise (fun a b => ¬(a.kind = "method" ∧ b.kind = "property")) ∧
      ms.Pairwise (fun a b =>
        a.kind = b.kind → a.kind ≠ "constructor" → lcCodepoint a.name b.name ≠ .gt) :=
  (c5_member_ordering lcCodepoint lcCodepoint_total lcCodepoint_trans).1
    memberOrderClassDecl plainClassBase "public"

/-- Counterexample to C6 as stated: on Map<Pair<a,b>,c> the code splits
on every comma, so the parameters are "Pair<a", "b>", "c" rather than the
top-level split "Pair<a,b>", "c". -/
theorem c6_type_params_counterexample :
    extractTypeParameters "Map<Pair<a,b>,c>" = ["Pair<a", "b>", "c"] ∧
      extractTypeParameters "Map<Pair<a,b>,c>" ≠ ["Pair<a,b>", "c"] :=
  ⟨rfl, by decide⟩

/-- Claim C6 (amended): isGeneric is true exactly when the text contains
'<'; the type parameters are the characters strictly between the first
'<' and a final '>' split on every comma, each piece trimmed, and the
empty sequence when the text has no '<', does not end in '>', or has
nothing between (stated for texts without line terminators, which the
regexp dot cannot cross); the Map example still yields "string" and
"Array<number>". -/
theorem c6_type_info_amended :
    (∀ raw : String, raw.data.all jsDotChar = true →
      (extractTypeInfo raw).raw = raw ∧
      ((extractTypeInfo raw).isGeneric = true ↔ hasChar raw '<' = true) ∧
      (extractTypeInfo raw).typeParameters = typeParametersAmended raw) ∧
    (extractTypeInfo "Map<string, Array<number>>").typeParameters =
      ["string", "Array<number>"] := by
  refine ⟨fun raw hnl => ⟨rfl, Iff.rfl, extractTypeParameters_amended_eq raw hnl⟩, ?_⟩
  rfl

/-- Claim C7: the parameter-comment lookup returns the text of the first
param tag whose text contains the parameter name as a substring, absent
without a JSDoc record or matching tag; by substring containment a
parameter named id matches a tag documenting userId. -/
theorem c7_param_comment :
    (∀ (jsDoc : Option JSDocInfo) (paramName : String),
      extractParamComment jsDoc paramName = paramCommentSpec jsDoc paramName) ∧
    extractParamComment (some userIdDoc) "id" = some "userId - the user id" := by
  constructor
  · intro jd p
    unfold extractParamComment paramCommentSpec
    rcases jd with _ | d
    · rfl
    · dsimp only
      rw [find?_eq_head?_filter]
  · rfl

/-- Claim C8: extractJSDoc is absent exactly when the node has no
documentation support or no block; otherwise it reflects only the first
block — description trimmed, one tag per tag with the tag name, the
comment text with "" substituted when absent, and the type annotation
text when present. -/
theorem c8_jsdoc_extraction :
    (∀ g : Option (List RawJsDoc), extractJSDoc g = none ↔ (g = none ∨ g = some [])) ∧
    (∀ (b : RawJsDoc) (rest : List RawJsDoc),
      ∃ r, extractJSDoc (some (b :: rest)) = some r ∧
        r.description = jsTrim b.description ∧
        r.tags.length = b.tags.length ∧
        ∀ i (hi : i < r.tags.length) (hb2 : i < b.tags.length),
          (r.tags.get ⟨i, hi⟩).name = (b.tags.get ⟨i, hb2⟩).tagName ∧
          (r.tags.get ⟨i, hi⟩).text = ((b.tags.get ⟨i, hb2⟩).comment).getD "" ∧
          (r.tags.get ⟨i, hi⟩).type = (b.tags.get ⟨i, hb2⟩).typeExprText) := by
  constructor
  · intro g
    rcases g with _ | l
    · simp [extractJSDoc]
    · rcases l with _ | ⟨b, t⟩
      · simp [extractJSDoc]
      · simp [extractJSDoc]
  · intro b rest
    refine ⟨_, rfl, rfl, by simp [extractJSDoc], ?_⟩
    intro i hi hb2
    refine ⟨?_, ?_, ?_⟩ <;> simp [extractJSDoc, List.get_eq_getElem]

/-- Claim C9: extraction is a deterministic function of the parsed file
contents and the variant — two invocations on equal inputs yield equal
ExtractionResult values. -/
theorem c9_determinism (lc : String → String → Ordering)
    (filePath₁ filePath₂ : String) (sf₁ sf₂ : SourceFile) (variant₁ variant₂ : String)
    (hf : filePath₁ = filePath₂) (hs : sf₁ = sf₂) (hv : variant₁ = variant₂) :
    extractModule lc filePath₁ sf₁ variant₁ = extractModule lc filePath₂ sf₂ variant₂ := by
  subst hf
  subst hs
  subst hv
  rfl

/-- Witness for C9 at the example file. -/
theorem c9_determinism_witness :
    extractModule lcCodepoint "/home/user/project/src/sample.ts" c1File "public" =
      extractModule lcCodepoint "/home/user/project/src/sample.ts" c1File "public" :=
  c9_determinism lcCodepoint "/home/user/project/src/sample.ts"
    "/home/user/project/src/sample.ts" c1File c1File "public" "public" rfl rfl rfl

/-- Claim C10: a class with a constructor emits, under every variant, the
first declared constructor as a member record with visibility "public"
and isStatic false — even a private or protected constructor — at the
head of the member list, and exactly one constructor record is present;
the visibility filter touches only properties and methods. -/
theorem c10_constructor_member (lc : String → String → Ordering)
    (htot : ∀ x y : String, lc x y ≠ .gt ∨ lc y x ≠ .gt)
    (htrans : ∀ x y z : String, lc x y ≠ .gt → lc y z ≠ .gt → lc x z ≠ .gt)
    (decl : Decl) (base : Symbol) (variant : String) (ctor : CtorDecl)
    (rest : List CtorDecl) (hc : decl.classInfo.ctors = ctor :: rest) :
    ∃ ms, (extractClass lc decl base variant).members = some ms ∧
      ms.head? = some (mkCtorMember ctor) ∧
      (mkCtorMember ctor).visibility = "public" ∧
      (mkCtorMember ctor).isStatic = false ∧
      (mkCtorMember ctor).parameters = some (ctor.params.map (fun p =>
        { name := p.name, type := p.type, optional := p.optional })) ∧
      ms.countP (fun m => decide (m.kind = "constructor")) = 1 := by
  obtain ⟨ms, heq, hpair, hperm, hok, hcount⟩ :=
    extractClass_members_spec lc htot htrans decl base variant
  have hmem : mkCtorMember ctor ∈ classRawMembers decl variant := by
    unfold classRawMembers
    rw [hc]
    simp
  refine ⟨ms, heq, ?_, rfl, rfl, rfl, ?_⟩
  · exact ctor_head_of_sorted lc ms hpair hcount (mkCtorMember ctor)
      (hperm.mem_iff.mpr hmem) rfl
  · rw [hperm.countP_eq]
    unfold classRawMembers
    rw [hc]
    rw [List.countP_append, List.countP_append, countP_ctor_props, countP_ctor_methods]
    simp [mkCtorMember, List.countP_cons]

/-- Witness for C10 at a class whose only constructor is private, under
the public variant. -/
theorem c10_constructor_member_witness :
    ∃ ms, (extractClass lcCodepoint privateCtorClassDecl plainClassBase "public").members =
        some ms ∧
      ms.head? = some (mkCtorMember privateCtorDecl) ∧
      (mkCtorMember privateCtorDecl).visibility = "public" ∧
      (mkCtorMember privateCtorDecl).isStatic = false ∧
      (mkCtorMember privateCtorDecl).parameters = some (privateCtorDecl.params.map (fun p =>
        { name := p.name, type := p.type, optional := p.optional })) ∧
      ms.countP (fun m => decide (m.kind = "constructor")) = 1 :=
  c10_constructor_member lcCodepoint lcCodepoint_total lcCodepoint_trans
    privateCtorClassDecl plainClassBase "public" privateCtorDecl [] rfl

end TsDoc
